import Mathlib

/-!
Shallow embedding of the WallMob notification relay (`src/server.js`) and
verification of its specification.

The server keeps two pieces of shared state: a set of connected clients and a
bounded, deduplicated history of "real" notifications.  We model the state as
explicit values and each event handler (inbound WebSocket message, new
connection, HTTP submission) as a pure function from state to state together
with the list of `(clientId, message)` sends it performs.
-/

/-- `matchHere pat l` holds when `pat` is an initial segment of `l`
(character-by-character comparison, as in JavaScript `String.includes`). -/
def matchHere : List Char → List Char → Bool
  | [], _ => true
  | _ :: _, [] => false
  | a :: as, b :: bs => a == b && matchHere as bs

/-- `hasSubstr pat l` holds when `pat` occurs contiguously somewhere in `l`. -/
def hasSubstr (pat : List Char) : List Char → Bool
  | [] => matchHere pat []
  | b :: bs => matchHere pat (b :: bs) || hasSubstr pat bs

/-- JavaScript `s.includes(pat)`: case-sensitive contiguous substring test. -/
def includes (s pat : String) : Bool :=
  hasSubstr pat.toList s.toList

/-- The fixed denylist of system-message markers, verbatim from `server.js`. -/
def systemKeywords : List String :=
  ["Initial Sync",
   "Connected to",
   "Connection successful",
   "request_initial_data",
   "ping",
   "pong",
   "heartbeat",
   "system_",
   "debug_",
   "test_connection"]

/-- ASCII lowercasing of a string, as a character list (the behaviour of
JavaScript `toLowerCase` on the ASCII texts this server handles). -/
def lowerChars (s : String) : List Char :=
  s.toList.map Char.toLower

/-- `isRealNotification` from `server.js`: lowercase the message and reject it
iff some lowercased denylist keyword occurs as a substring. -/
def isRealNotification (message : String) : Bool :=
  let lowerMessage := lowerChars message
  !(systemKeywords.any fun keyword => hasSubstr (lowerChars keyword) lowerMessage)

/-- JavaScript `l.slice(-n)`: the last `n` elements (all of them if fewer). -/
def takeLast (n : Nat) (l : List α) : List α :=
  l.drop (l.length - n)

/-- The history-insertion step shared by the message handler and the HTTP
route: skip exact duplicates, push to the end, trim to the last 50 entries. -/
def recordIfNew (history : List String) (text : String) : List String :=
  if history.contains text then history
  else if (history ++ [text]).length > 50 then takeLast 50 (history ++ [text])
  else history ++ [text]

/-- Sequential insertion of a batch of texts into the history buffer. -/
def insertAll (ts : List String) : List String :=
  ts.foldl recordIfNew []

/-- A WebSocket client: identity, `readyState === OPEN`, and whether its
`send` throws (the transport-failure possibility). -/
structure Client where
  id : Nat
  isOpen : Bool
  sendFails : Bool
deriving DecidableEq

/-- The server's shared mutable state: the client set (in insertion order)
and the message history. -/
structure ServerState where
  clients : List Client
  messageHistory : List String
deriving DecidableEq

/-- `clients.add(ws)`: set insertion, keeping insertion order. -/
def addClient (clients : List Client) (c : Client) : List Client :=
  if clients.contains c then clients else clients ++ [c]

/-- `broadcastToAll`: visit each client in order; send to the open ones; a
client whose send throws is deleted from the set and iteration continues.
Returns the surviving client set and the performed sends in order. -/
def runBroadcastAll (message : String) : List Client → List Client × List (Nat × String)
  | [] => ([], [])
  | c :: rest =>
    let r := runBroadcastAll message rest
    if c.isOpen then
      if c.sendFails then (r.1, r.2)
      else (c :: r.1, (c.id, message) :: r.2)
    else (c :: r.1, r.2)

/-- `broadcastToOthers`: like `runBroadcastAll` but skipping the sender. -/
def runBroadcastOthers (sender : Nat) (message : String) :
    List Client → List Client × List (Nat × String)
  | [] => ([], [])
  | c :: rest =>
    let r := runBroadcastOthers sender message rest
    if c.id != sender && c.isOpen then
      if c.sendFails then (r.1, r.2)
      else (c :: r.1, (c.id, message) :: r.2)
    else (c :: r.1, r.2)

/-- The `connection` handler: register the client, then replay to it the last
5 history entries that pass the classifier. -/
def handleConnection (st : ServerState) (c : Client) :
    ServerState × List (Nat × String) :=
  let clients := addClient st.clients c
  let realNotifications :=
    takeLast 5 (st.messageHistory.filter fun msg => isRealNotification msg)
  (⟨clients, st.messageHistory⟩, realNotifications.map fun msg => (c.id, msg))

/-- The `incoming` message handler: short-circuit on `request_initial_data`,
then classify; a real notification is recorded (deduplicated) and broadcast to
every other open client, anything else is dropped. -/
def handleIncoming (st : ServerState) (senderId : Nat) (msgStr : String) :
    ServerState × List (Nat × String) :=
  if includes msgStr "request_initial_data" then
    (st, [])
  else if isRealNotification msgStr then
    let messageHistory := recordIfNew st.messageHistory msgStr
    let b := runBroadcastOthers senderId msgStr st.clients
    (⟨b.1, messageHistory⟩, b.2)
  else
    (st, [])

/-- The JSON body of `POST /send-notification`; a missing field is `none`. -/
structure PostBody where
  type : Option String
  title : Option String
  message : Option String
  extraData : Option String

/-- JavaScript falsiness of an optional string field: missing or empty. -/
def jsFalsy : Option String → Bool
  | none => true
  | some s => s == ""

/-- The response of `POST /send-notification` (ignoring HTTP 500, which the
pure model cannot reach). -/
inductive PostResponse where
  | badRequest
  | success (clients : Nat) (notification : String)
  | filtered (notification : String)
deriving DecidableEq

/-- The notification text built by the route: `type|title|message|extraData`
with `extraData` defaulting to the empty string. -/
def postText (body : PostBody) : String :=
  body.type.getD "" ++ "|" ++ body.title.getD "" ++ "|" ++
    body.message.getD "" ++ "|" ++ body.extraData.getD ""

/-- The `POST /send-notification` handler: validate the required fields,
build the text, classify, and either record-and-broadcast or filter. -/
def handlePost (st : ServerState) (body : PostBody) :
    ServerState × List (Nat × String) × PostResponse :=
  if jsFalsy body.type || jsFalsy body.title || jsFalsy body.message then
    (st, [], PostResponse.badRequest)
  else
    let notification := postText body
    if isRealNotification notification then
      let messageHistory := recordIfNew st.messageHistory notification
      let b := runBroadcastAll notification st.clients
      (⟨b.1, messageHistory⟩, b.2, PostResponse.success b.1.length notification)
    else
      (st, [], PostResponse.filtered notification)

/-- The history-buffer invariant: every stored entry is a real notification. -/
def histInv (h : List String) : Prop :=
  ∀ m ∈ h, isRealNotification m = true

/-- 51 pairwise-distinct one-character real notifications. -/
def ts51 : List String :=
  (List.range 51).map fun i => String.mk [Char.ofNat (65 + i)]

/-- Three demo clients: two open, one closed, none failing. -/
def demoClients : List Client :=
  [⟨1, true, false⟩, ⟨2, true, false⟩, ⟨3, false, false⟩]

/-- Two demo clients for the failure scenario: one open and failing, one open
and healthy. -/
def failClients : List Client :=
  [⟨1, true, true⟩, ⟨2, true, false⟩]

/-! ### Substring machinery -/

theorem matchHere_iff (pat l : List Char) :
    matchHere pat l = true ↔ ∃ post, l = pat ++ post := by
  induction pat generalizing l with
  | nil => simp [matchHere]
  | cons a as ih =>
    cases l with
    | nil => simp [matchHere]
    | cons b bs =>
      simp only [matchHere, Bool.and_eq_true, beq_iff_eq, ih, List.cons_append,
        List.cons.injEq]
      constructor
      · rintro ⟨rfl, post, rfl⟩
        exact ⟨post, rfl, rfl⟩
      · rintro ⟨post, rfl, rfl⟩
        exact ⟨rfl, post, rfl⟩

theorem hasSubstr_iff (pat l : List Char) :
    hasSubstr pat l = true ↔ ∃ pre post, l = pre ++ pat ++ post := by
  induction l with
  | nil =>
    simp only [hasSubstr, matchHere_iff]
    constructor
    · rintro ⟨post, h⟩
      exact ⟨[], post, h⟩
    · rintro ⟨pre, post, h⟩
      rcases List.append_eq_nil.mp h.symm with ⟨h1, h2⟩
      rcases List.append_eq_nil.mp h1 with ⟨h3, h4⟩
      exact ⟨[], by simp [h4]⟩
  | cons b bs ih =>
    simp only [hasSubstr, Bool.or_eq_true, matchHere_iff, ih]
    constructor
    · rintro (⟨post, h⟩ | ⟨pre, post, h⟩)
      · exact ⟨[], post, by simpa using h⟩
      · exact ⟨b :: pre, post, by simp [h]⟩
    · rintro ⟨pre, post, h⟩
      cases pre with
      | nil =>
        exact Or.inl ⟨post, by simpa using h⟩
      | cons x xs =>
        right
        simp only [List.cons_append, List.cons.injEq] at h
        exact ⟨xs, post, h.2⟩

/-! ### The classifier (C1) -/

/-- The denylist in lowercase, as quoted by the specification. -/
def lowerKeywords : List String :=
  ["initial sync", "connected to", "connection successful", "request_initial_data",
   "ping", "pong", "heartbeat", "system_", "debug_", "test_connection"]

theorem systemKeywords_lower :
    systemKeywords.map lowerChars = lowerKeywords.map String.toList := by
  decide

/-- Claim C1: `isRealNotification text` returns `false` iff `text` contains
one of the ten denylist markers as a case-insensitive substring at some
position (i.e. the marker occurs in the lowercased text); in particular the
empty string is classified as real.  The function is a pure Lean function,
hence deterministic. -/
theorem classifier_denylist_iff (text : String) :
    (isRealNotification text = false ↔
      ∃ k ∈ lowerKeywords, ∃ pre post, lowerChars text = pre ++ k.toList ++ post) ∧
    isRealNotification "" = true := by
  refine ⟨?_, by decide⟩
  simp only [isRealNotification, Bool.not_eq_false', List.any_eq_true]
  constructor
  · rintro ⟨k, hk, hinc⟩
    have hmem : lowerChars k ∈ lowerKeywords.map String.toList := by
      rw [← systemKeywords_lower]
      exact List.mem_map_of_mem _ hk
    obtain ⟨k', hk', hkeq⟩ := List.mem_map.mp hmem
    obtain ⟨pre, post, hdec⟩ := (hasSubstr_iff _ _).mp hinc
    refine ⟨k', hk', pre, post, ?_⟩
    rw [hkeq]
    exact hdec
  · rintro ⟨k, hk, pre, post, hdec⟩
    have hmem : k.toList ∈ systemKeywords.map lowerChars := by
      rw [systemKeywords_lower]
      exact List.mem_map_of_mem _ hk
    obtain ⟨k₀, hk₀, hkeq⟩ := List.mem_map.mp hmem
    refine ⟨k₀, hk₀, (hasSubstr_iff _ _).mpr ⟨pre, post, ?_⟩⟩
    rw [hkeq]
    exact hdec

/-! ### The history buffer (C2, C3, C4) -/

theorem takeLast_length_le (n : Nat) (l : List α) : (takeLast n l).length ≤ n := by
  simp only [takeLast, List.length_drop]
  omega

theorem takeLast_of_le {n : Nat} {l : List α} (h : l.length ≤ n) :
    takeLast n l = l := by
  unfold takeLast
  rw [Nat.sub_eq_zero_of_le h, List.drop_zero]

theorem recordIfNew_length_le (history : List String) (text : String)
    (h : history.length ≤ 50) : (recordIfNew history text).length ≤ 50 := by
  unfold recordIfNew
  split
  · exact h
  · split
    · exact takeLast_length_le 50 _
    · rename_i hle
      omega

theorem mem_recordIfNew {m : String} {history : List String} {text : String}
    (h : m ∈ recordIfNew history text) : m ∈ history ∨ m = text := by
  unfold recordIfNew at h
  split at h
  · exact Or.inl h
  · split at h
    · unfold takeLast at h
      have h2 := List.drop_subset _ _ h
      simpa using h2
    · simpa using h

theorem self_mem_recordIfNew (history : List String) (text : String) :
    text ∈ recordIfNew history text := by
  unfold recordIfNew
  split
  · exact List.elem_iff.mp (by assumption)
  · split
    · unfold takeLast
      rw [List.drop_append_of_le_length
        (by simp only [List.length_append, List.length_singleton]; omega)]
      exact List.mem_append_right _ (List.mem_singleton.mpr rfl)
    · exact List.mem_append_right _ (List.mem_singleton.mpr rfl)

theorem recordIfNew_of_mem {history : List String} {text : String}
    (h : text ∈ history) : recordIfNew history text = history := by
  have hc : history.contains text = true := List.elem_iff.mpr h
  unfold recordIfNew
  rw [if_pos hc]

theorem recordIfNew_nodup {history : List String} (text : String)
    (h : history.Nodup) : (recordIfNew history text).Nodup := by
  by_cases hmem : text ∈ history
  · rw [recordIfNew_of_mem hmem]
    exact h
  · have hnd : (history ++ [text]).Nodup := by
      simp [List.nodup_append, h, hmem]
    unfold recordIfNew
    split
    · exact h
    · split
      · unfold takeLast
        exact (List.drop_sublist _ _).nodup hnd
      · exact hnd

/-- Claim C4: inserting a text already present (exact equality) leaves the
buffer unchanged, inserting the same text twice equals inserting it once, and
insertion preserves pairwise-distinctness of the buffer. -/
theorem history_dedup (history : List String) (text : String) :
    (text ∈ history → recordIfNew history text = history) ∧
    recordIfNew (recordIfNew history text) text = recordIfNew history text ∧
    (history.Nodup → (recordIfNew history text).Nodup) := by
  refine ⟨recordIfNew_of_mem, ?_, recordIfNew_nodup text⟩
  exact recordIfNew_of_mem (self_mem_recordIfNew history text)

theorem history_dedup_witness :
    recordIfNew ["a"] "a" = ["a"] ∧
    recordIfNew (recordIfNew ["b"] "a") "a" = recordIfNew ["b"] "a" ∧
    (recordIfNew ["b"] "a").Nodup :=
  ⟨(history_dedup ["a"] "a").1 (by decide),
   (history_dedup ["b"] "a").2.1,
   (history_dedup ["b"] "a").2.2 (by decide)⟩

theorem recordIfNew_eq_takeLast {done : List String} {t : String}
    (ht : t ∉ done) :
    recordIfNew (takeLast 50 done) t = takeLast 50 (done ++ [t]) := by
  have htl : t ∉ takeLast 50 done := fun hm => ht (List.drop_subset _ _ hm)
  have hc : ¬ (takeLast 50 done).contains t = true := fun hcc =>
    htl (List.elem_iff.mp hcc)
  by_cases hlen : done.length ≤ 50
  · rw [takeLast_of_le hlen] at hc ⊢
    unfold recordIfNew
    rw [if_neg hc]
    split
    · rfl
    · rename_i hgt
      rw [takeLast_of_le (by omega)]
  · unfold recordIfNew
    rw [if_neg hc]
    split
    · unfold takeLast
      simp only [List.length_append, List.length_drop, List.length_singleton]
      rw [List.drop_append_of_le_length (by simp only [List.length_drop]; omega),
          List.drop_append_of_le_length (by omega),
          List.drop_drop]
      congr 2
      omega
    · rename_i hgt
      exfalso
      unfold takeLast at hgt
      simp only [List.length_append, List.length_drop, List.length_singleton] at hgt
      omega

theorem insertAll_go (done ts : List String) (h : (done ++ ts).Nodup) :
    ts.foldl recordIfNew (takeLast 50 done) = takeLast 50 (done ++ ts) := by
  induction ts generalizing done with
  | nil => simp
  | cons t rest ih =>
    have ht : t ∉ done := fun hmem =>
      (List.nodup_append.mp h).2.2 hmem (List.mem_cons_self t rest)
    rw [List.foldl_cons, recordIfNew_eq_takeLast ht,
        ih (done ++ [t]) (by simpa [List.append_assoc] using h)]
    rw [List.append_assoc]
    rfl

theorem insertAll_eq_takeLast (ts : List String) (h : ts.Nodup) :
    insertAll ts = takeLast 50 ts := by
  have hgo := insertAll_go [] ts (by simpa using h)
  have h0 : takeLast 50 ([] : List String) = [] := rfl
  rw [insertAll]
  rw [h0] at hgo
  simpa using hgo

/-- Claim C3: an insertion never grows the history beyond 50 entries, and
after inserting 51 pairwise-distinct real notifications into an empty buffer
the length is exactly 50 and the first-inserted notification is absent. -/
theorem history_capacity :
    (∀ history text, history.length ≤ 50 →
        (recordIfNew history text).length ≤ 50) ∧
    (∀ ts : List String, ts.length = 51 → ts.Nodup →
        (∀ t ∈ ts, isRealNotification t = true) →
        (insertAll ts).length = 50 ∧
        ∀ t₀, ts.head? = some t₀ → t₀ ∉ insertAll ts) := by
  refine ⟨recordIfNew_length_le, ?_⟩
  intro ts hlen hnd hreal
  rw [insertAll_eq_takeLast ts hnd]
  cases ts with
  | nil => simp at hlen
  | cons a tl =>
    have htl : tl.length = 50 := by simpa using hlen
    have hdrop : takeLast 50 (a :: tl) = tl := by
      unfold takeLast
      simp [htl]
    rw [hdrop]
    refine ⟨htl, ?_⟩
    intro t₀ ht₀ hmem
    have ha : a = t₀ := by simpa using ht₀
    subst ha
    exact (List.nodup_cons.mp hnd).1 hmem

theorem history_capacity_witness :
    (recordIfNew ["seed"] "x").length ≤ 50 ∧
    (insertAll ts51).length = 50 ∧ "A" ∉ insertAll ts51 := by
  refine ⟨history_capacity.1 ["seed"] "x" (by decide), ?_, ?_⟩
  · exact (history_capacity.2 ts51 (by decide) (by decide) (by decide)).1
  · exact (history_capacity.2 ts51 (by decide) (by decide) (by decide)).2 "A"
      (by decide)

theorem histInv_recordIfNew {history : List String} {text : String}
    (hreal : isRealNotification text = true) (hinv : histInv history) :
    histInv (recordIfNew history text) := by
  intro m hm
  rcases mem_recordIfNew hm with hmem | rfl
  · exact hinv m hmem
  · exact hreal

/-- Claim C2: every operation that mutates the history buffer (inbound
message handling and HTTP submission) preserves the invariant that each
stored entry passes `isRealNotification`, and the backfill replayed to a
newly joined connection consists only of entries passing it. -/
theorem history_invariant :
    (∀ st senderId msgStr, histInv st.messageHistory →
        histInv (handleIncoming st senderId msgStr).1.messageHistory) ∧
    (∀ st body, histInv st.messageHistory →
        histInv (handlePost st body).1.messageHistory) ∧
    (∀ st c, ∀ s ∈ (handleConnection st c).2, isRealNotification s.2 = true) := by
  refine ⟨?_, ?_, ?_⟩
  · intro st senderId msgStr hinv
    cases h1 : includes msgStr "request_initial_data" with
    | true => simpa [handleIncoming, h1] using hinv
    | false =>
      cases h2 : isRealNotification msgStr with
      | true => simpa [handleIncoming, h1, h2] using histInv_recordIfNew h2 hinv
      | false => simpa [handleIncoming, h1, h2] using hinv
  · intro st body hinv
    cases h1 : (jsFalsy body.type || jsFalsy body.title || jsFalsy body.message) with
    | true => simpa [handlePost, h1] using hinv
    | false =>
      cases h2 : isRealNotification (postText body) with
      | true => simpa [handlePost, h1, h2] using histInv_recordIfNew h2 hinv
      | false => simpa [handlePost, h1, h2] using hinv
  · intro st c s hs
    simp only [handleConnection, takeLast, List.mem_map] at hs
    obtain ⟨msg, hmsg, rfl⟩ := hs
    have hmem := List.drop_subset _ _ hmsg
    exact (List.mem_filter.mp hmem).2

theorem history_invariant_witness :
    histInv (handleIncoming ⟨[], []⟩ 0 "hello").1.messageHistory ∧
    histInv (handlePost ⟨[], []⟩ ⟨some "a", some "b", some "c", none⟩).1.messageHistory ∧
    isRealNotification ((7 : Nat), "ok").2 = true := by
  refine ⟨history_invariant.1 ⟨[], []⟩ 0 "hello" ?_,
          history_invariant.2.1 ⟨[], []⟩ ⟨some "a", some "b", some "c", none⟩ ?_,
          history_invariant.2.2 ⟨[], ["ok"]⟩ ⟨7, true, false⟩ (7, "ok") ?_⟩
  · intro m hm
    cases hm
  · intro m hm
    cases hm
  · decide

/-! ### Broadcasting (C6, C7) -/

theorem runBroadcastAll_eq (message : String) (clients : List Client) :
    runBroadcastAll message clients =
      (clients.filter fun c => !(c.isOpen && c.sendFails),
       (clients.filter fun c => c.isOpen && !c.sendFails).map
         fun c => (c.id, message)) := by
  induction clients with
  | nil => rfl
  | cons c rest ih =>
    cases ho : c.isOpen <;> cases hf : c.sendFails <;>
      simp [runBroadcastAll, ih, List.filter_cons, ho, hf]

theorem runBroadcastOthers_eq (sender : Nat) (message : String)
    (clients : List Client) :
    runBroadcastOthers sender message clients =
      (clients.filter fun c => !(c.id != sender && c.isOpen && c.sendFails),
       (clients.filter fun c => c.id != sender && c.isOpen && !c.sendFails).map
         fun c => (c.id, message)) := by
  induction clients with
  | nil => rfl
  | cons c rest ih =>
    cases hs : c.id != sender <;> cases ho : c.isOpen <;> cases hf : c.sendFails <;>
      simp [runBroadcastOthers, ih, List.filter_cons, hs, ho, hf]

/-- Claim C6: with no transport failures, an inbound broadcast from sender A
sends the message to exactly the open clients other than A (A receives
nothing), while a side-channel broadcast sends it to exactly all open clients
with no sender excluded; in both cases the registry is unchanged. -/
theorem broadcast_targets (clients : List Client) (sender : Nat)
    (message : String) (hok : ∀ c ∈ clients, c.sendFails = false) :
    (runBroadcastOthers sender message clients).2 =
      (clients.filter fun c => c.id != sender && c.isOpen).map
        (fun c => (c.id, message)) ∧
    (runBroadcastOthers sender message clients).1 = clients ∧
    (∀ s ∈ (runBroadcastOthers sender message clients).2, s.1 ≠ sender) ∧
    (runBroadcastAll message clients).2 =
      (clients.filter fun c => c.isOpen).map (fun c => (c.id, message)) ∧
    (runBroadcastAll message clients).1 = clients := by
  refine ⟨?_, ?_, ?_, ?_, ?_⟩
  · rw [runBroadcastOthers_eq]
    dsimp only
    congr 1
    apply List.filter_congr
    intro c hc
    rw [hok c hc]
    simp
  · rw [runBroadcastOthers_eq]
    dsimp only
    apply List.filter_eq_self.mpr
    intro c hc
    rw [hok c hc]
    simp
  · intro s hs
    rw [runBroadcastOthers_eq] at hs
    dsimp only at hs
    simp only [List.mem_map, List.mem_filter] at hs
    obtain ⟨c, ⟨hc, hpred⟩, rfl⟩ := hs
    simp only [Bool.and_eq_true] at hpred
    exact bne_iff_ne.mp hpred.1.1
  · rw [runBroadcastAll_eq]
    dsimp only
    congr 1
    apply List.filter_congr
    intro c hc
    rw [hok c hc]
    simp
  · rw [runBroadcastAll_eq]
    dsimp only
    apply List.filter_eq_self.mpr
    intro c hc
    rw [hok c hc]
    simp

theorem broadcast_targets_witness :
    (runBroadcastOthers 1 "n" demoClients).2 =
      (demoClients.filter fun c => c.id != 1 && c.isOpen).map
        (fun c => (c.id, "n")) ∧
    (runBroadcastOthers 1 "n" demoClients).1 = demoClients ∧
    (∀ s ∈ (runBroadcastOthers 1 "n" demoClients).2, s.1 ≠ 1) ∧
    (runBroadcastAll "n" demoClients).2 =
      (demoClients.filter fun c => c.isOpen).map (fun c => (c.id, "n")) ∧
    (runBroadcastAll "n" demoClients).1 = demoClients :=
  broadcast_targets demoClients 1 "n" (by decide)

/-- Claim C7: within a single broadcast call, a client whose send fails is
removed from the registry — and exactly those clients are removed: every
client that is closed, or open with a non-failing send, stays registered
(the surviving registry is characterized exactly) — while every other open,
non-failing client still receives the message in that same call; both
broadcast functions are total, so the failure never propagates to the
caller. -/
theorem broadcast_failure_isolation (clients : List Client) (sender : Nat)
    (message : String) :
    (∀ c ∈ clients, c.isOpen = true → c.sendFails = true →
        c ∉ (runBroadcastAll message clients).1) ∧
    (∀ c ∈ clients, c.isOpen = true → c.sendFails = true → c.id ≠ sender →
        c ∉ (runBroadcastOthers sender message clients).1) ∧
    (∀ d ∈ clients, d.isOpen = true → d.sendFails = false →
        (d.id, message) ∈ (runBroadcastAll message clients).2) ∧
    (∀ d ∈ clients, d.isOpen = true → d.sendFails = false → d.id ≠ sender →
        (d.id, message) ∈ (runBroadcastOthers sender message clients).2) ∧
    (∀ d ∈ clients, (d.isOpen = true → d.sendFails = false) →
        d ∈ (runBroadcastAll message clients).1) ∧
    (∀ d ∈ clients, (d.id ≠ sender → d.isOpen = true → d.sendFails = false) →
        d ∈ (runBroadcastOthers sender message clients).1) ∧
    (runBroadcastAll message clients).1 =
      clients.filter (fun c => !(c.isOpen && c.sendFails)) ∧
    (runBroadcastOthers sender message clients).1 =
      clients.filter (fun c => !(c.id != sender && c.isOpen && c.sendFails)) := by
  refine ⟨?_, ?_, ?_, ?_, ?_, ?_, ?_, ?_⟩
  · intro c hc ho hf hmem
    rw [runBroadcastAll_eq] at hmem
    dsimp only at hmem
    simp only [List.mem_filter] at hmem
    rw [ho, hf] at hmem
    simp at hmem
  · intro c hc ho hf hne hmem
    rw [runBroadcastOthers_eq] at hmem
    dsimp only at hmem
    simp only [List.mem_filter] at hmem
    rw [ho, hf, bne_iff_ne.mpr hne] at hmem
    simp at hmem
  · intro d hd ho hf
    rw [runBroadcastAll_eq]
    dsimp only
    simp only [List.mem_map, List.mem_filter]
    refine ⟨d, ⟨hd, ?_⟩, rfl⟩
    rw [ho, hf]
    rfl
  · intro d hd ho hf hne
    rw [runBroadcastOthers_eq]
    dsimp only
    simp only [List.mem_map, List.mem_filter]
    refine ⟨d, ⟨hd, ?_⟩, rfl⟩
    rw [ho, hf, bne_iff_ne.mpr hne]
    rfl
  · intro d hd hcond
    rw [runBroadcastAll_eq]
    dsimp only
    refine List.mem_filter.mpr ⟨hd, ?_⟩
    cases ho : d.isOpen
    · simp
    · rw [hcond ho]
      rfl
  · intro d hd hcond
    rw [runBroadcastOthers_eq]
    dsimp only
    refine List.mem_filter.mpr ⟨hd, ?_⟩
    cases hs : d.id != sender
    · simp
    · cases ho : d.isOpen
      · simp
      · rw [hcond (bne_iff_ne.mp hs) ho]
        rfl
  · rw [runBroadcastAll_eq]
  · rw [runBroadcastOthers_eq]

theorem broadcast_failure_isolation_witness :
    (⟨1, true, true⟩ : Client) ∉ (runBroadcastAll "n" failClients).1 ∧
    (⟨1, true, true⟩ : Client) ∉ (runBroadcastOthers 9 "n" failClients).1 ∧
    ((2 : Nat), "n") ∈ (runBroadcastAll "n" failClients).2 ∧
    ((2 : Nat), "n") ∈ (runBroadcastOthers 9 "n" failClients).2 ∧
    (⟨2, true, false⟩ : Client) ∈ (runBroadcastAll "n" failClients).1 ∧
    (⟨2, true, false⟩ : Client) ∈ (runBroadcastOthers 9 "n" failClients).1 ∧
    (runBroadcastAll "n" failClients).1 =
      failClients.filter (fun c => !(c.isOpen && c.sendFails)) ∧
    (runBroadcastOthers 9 "n" failClients).1 =
      failClients.filter (fun c => !(c.id != 9 && c.isOpen && c.sendFails)) :=
  ⟨(broadcast_failure_isolation failClients 9 "n").1 ⟨1, true, true⟩
      (by decide) rfl rfl,
   (broadcast_failure_isolation failClients 9 "n").2.1 ⟨1, true, true⟩
      (by decide) rfl rfl (by decide),
   (broadcast_failure_isolation failClients 9 "n").2.2.1 ⟨2, true, false⟩
      (by decide) rfl rfl,
   (broadcast_failure_isolation failClients 9 "n").2.2.2.1 ⟨2, true, false⟩
      (by decide) rfl rfl (by decide),
   (broadcast_failure_isolation failClients 9 "n").2.2.2.2.1 ⟨2, true, false⟩
      (by decide) (fun _ => rfl),
   (broadcast_failure_isolation failClients 9 "n").2.2.2.2.2.1 ⟨2, true, false⟩
      (by decide) (fun _ _ => rfl),
   (broadcast_failure_isolation failClients 9 "n").2.2.2.2.2.2.1,
   (broadcast_failure_isolation failClients 9 "n").2.2.2.2.2.2.2⟩

/-! ### New connections (C5) -/

theorem mem_addClient (clients : List Client) (c : Client) :
    c ∈ addClient clients c := by
  unfold addClient
  split
  · exact List.elem_iff.mp (by assumption)
  · exact List.mem_append_right _ (List.mem_singleton.mpr rfl)

/-- Claim C5: when a new connection joins, the relay registers it and replays
to that connection only — exactly the last at most 5 entries of the history
that pass the classifier, each sent to the new client: the sends are equal to
that replay (a suffix of the classifier-passing entries, of length
`min 5 count`), in original insertion order; the history is untouched and
nothing is sent to any other connection. -/
theorem connection_backfill (st : ServerState) (c : Client) :
    (handleConnection st c).1.clients = addClient st.clients c ∧
    c ∈ (handleConnection st c).1.clients ∧
    (handleConnection st c).1.messageHistory = st.messageHistory ∧
    (handleConnection st c).2 =
      (takeLast 5 (st.messageHistory.filter fun msg => isRealNotification msg)).map
        (fun msg => (c.id, msg)) ∧
    List.IsSuffix ((handleConnection st c).2.map Prod.snd)
      (st.messageHistory.filter fun msg => isRealNotification msg) ∧
    (handleConnection st c).2.length =
      min 5 (st.messageHistory.filter fun msg => isRealNotification msg).length ∧
    (∀ s ∈ (handleConnection st c).2,
      s.1 = c.id ∧ isRealNotification s.2 = true) ∧
    (handleConnection st c).2.length ≤ 5 ∧
    List.Sublist ((handleConnection st c).2.map Prod.snd) st.messageHistory := by
  have hmm : (handleConnection st c).2.map Prod.snd =
      takeLast 5 (st.messageHistory.filter fun msg => isRealNotification msg) := by
    simp [handleConnection, List.map_map, Function.comp]
  refine ⟨rfl, mem_addClient st.clients c, rfl, rfl, ?_, ?_, ?_, ?_, ?_⟩
  · rw [hmm]
    unfold takeLast
    exact List.drop_suffix _ _
  · have hlen := congrArg List.length hmm
    rw [List.length_map] at hlen
    rw [hlen]
    simp only [takeLast, List.length_drop]
    omega
  · intro s hs
    simp only [handleConnection, takeLast, List.mem_map] at hs
    obtain ⟨msg, hmsg, rfl⟩ := hs
    refine ⟨rfl, ?_⟩
    have hmem := List.drop_subset _ _ hmsg
    exact (List.mem_filter.mp hmem).2
  · simp only [handleConnection, List.length_map]
    exact takeLast_length_le 5 _
  · rw [hmm]
    exact (List.drop_sublist _ _).trans (List.filter_sublist _)

theorem connection_backfill_witness :
    ((8 : Nat), "hi").1 = (⟨8, true, false⟩ : Client).id ∧
    isRealNotification ((8 : Nat), "hi").2 = true :=
  (connection_backfill ⟨[], ["hi"]⟩ ⟨8, true, false⟩).2.2.2.2.2.2.1 (8, "hi")
    (by decide)

/-! ### The side-channel API (C8, C9, C10) -/

/-- Claim C8: a submission with a missing or empty required field is rejected
as a validation failure and changes nothing; otherwise the text
`type|title|message|extraData` is built and classified: a real text is
recorded (deduplicated) and broadcast to all open clients with a success
response carrying the post-broadcast connection count, and a non-real text
yields a non-error filtered outcome with nothing stored or broadcast. -/
theorem post_route_spec (st : ServerState) (body : PostBody) :
    ((jsFalsy body.type || jsFalsy body.title || jsFalsy body.message) = true →
      handlePost st body = (st, [], PostResponse.badRequest)) ∧
    ((jsFalsy body.type || jsFalsy body.title || jsFalsy body.message) = false →
      isRealNotification (postText body) = true →
      (handlePost st body).1.messageHistory =
          recordIfNew st.messageHistory (postText body) ∧
      (handlePost st body).1.clients = (runBroadcastAll (postText body) st.clients).1 ∧
      (handlePost st body).2.1 = (runBroadcastAll (postText body) st.clients).2 ∧
      (handlePost st body).2.2 = PostResponse.success
        ((runBroadcastAll (postText body) st.clients).1.length) (postText body)) ∧
    ((jsFalsy body.type || jsFalsy body.title || jsFalsy body.message) = false →
      isRealNotification (postText body) = false →
      handlePost st body = (st, [], PostResponse.filtered (postText body))) := by
  refine ⟨?_, ?_, ?_⟩
  · intro h1
    simp [handlePost, h1]
  · intro h1 h2
    refine ⟨?_, ?_, ?_, ?_⟩ <;> simp [handlePost, h1, h2]
  · intro h1 h2
    simp [handlePost, h1, h2]

theorem post_route_spec_witness :
    handlePost ⟨[], []⟩ ⟨some "t", some "", some "m", none⟩ =
      (⟨[], []⟩, [], PostResponse.badRequest) ∧
    (handlePost ⟨[], []⟩ ⟨some "new_wallpaper", some "Art1",
        some "New wallpaper available", none⟩).1.messageHistory =
      recordIfNew [] (postText ⟨some "new_wallpaper", some "Art1",
        some "New wallpaper available", none⟩) ∧
    handlePost ⟨[], []⟩ ⟨some "new_wallpaper", some "Test",
        some "Connection successful!", none⟩ =
      (⟨[], []⟩, [], PostResponse.filtered (postText ⟨some "new_wallpaper",
        some "Test", some "Connection successful!", none⟩)) :=
  ⟨(post_route_spec ⟨[], []⟩ _).1 (by decide),
   ((post_route_spec ⟨[], []⟩ _).2.1 (by decide) (by decide)).1,
   (post_route_spec ⟨[], []⟩ _).2.2 (by decide) (by decide)⟩

/-- Claim C9: an inbound message whose text contains the control marker
`request_initial_data` is handled as a silent no-op: the state is unchanged
and nothing is sent to any connection (the marker is short-circuited before
general classification). -/
theorem initial_data_request_noop (st : ServerState) (senderId : Nat)
    (msgStr : String) (h : includes msgStr "request_initial_data" = true) :
    handleIncoming st senderId msgStr = (st, []) := by
  simp [handleIncoming, h]

theorem initial_data_request_noop_witness :
    handleIncoming ⟨demoClients, ["x"]⟩ 1 "please request_initial_data now" =
      (⟨demoClients, ["x"]⟩, []) :=
  initial_data_request_noop _ 1 _ (by decide)

set_option maxRecDepth 4000 in
/-- Claim C10: deduplication compares only against the buffer's current
contents.  The text "A" is stored by its first insertion, evicted by the
50-entry capacity bound after 50 further distinct real insertions, and a
later arrival of the exact same text is appended to the buffer a second time
and broadcast again. -/
theorem dedup_not_global :
    "A" ∈ insertAll (ts51.take 1) ∧
    "A" ∉ insertAll ts51 ∧
    "A" ∈ (handleIncoming ⟨demoClients, insertAll ts51⟩ 1 "A").1.messageHistory ∧
    ((2 : Nat), "A") ∈ (handleIncoming ⟨demoClients, insertAll ts51⟩ 1 "A").2 := by
  decide
